import Mathlib

/-!
# Verification of the popefeed/scrapper persistence and extraction core

Shallow embedding of the repository's pure logic:

* `src/api_generator/json_builder.py` — `deep_merge`, `save_api_file`
* `src/scrapper/vatican_documents_index.py` — `parse_document_date`,
  `_document_has_content`, `scrape_documents_from_index` (per-item pipeline),
  `update_pope_documents_index` (doc-type token derivation),
  `_extract_document_id`, `_extract_language_code`
* `src/scrapper/vatican_pope.py` — `parse_vatican_date`
* `src/api_generator/posts_generator.py` — `create_paginated_posts_api`
  (pagination arithmetic)
* `src/cli/main.py` — `run_scraper` (persistence event trace)

JSON values are modelled by the inductive `Json`; Python dicts are association
lists with insertion-order update semantics (update in place keeps the entry's
position, a fresh key is appended), matching CPython dict behaviour.
-/

set_option maxHeartbeats 1600000
set_option maxRecDepth 16384
set_option linter.unusedSectionVars false

namespace Scrapper

/-- JSON values as produced by `json.load` / consumed by `json.dump`.
Objects are insertion-ordered association lists (CPython dicts preserve
insertion order); numbers are modelled as integers (all numbers appearing
in this corpus are integers). -/
inductive Json where
  | null : Json
  | bool : Bool → Json
  | num : Int → Json
  | str : String → Json
  | arr : List Json → Json
  | obj : List (String × Json) → Json
  deriving Repr

mutual

/-- Structural equality on JSON values (models Python `==` on the values this
corpus contains: order-sensitive on lists, and for the objects reached by the
claims' theorems the key order always agrees on both sides). -/
def Json.beq : Json → Json → Bool
  | .null, .null => true
  | .bool a, .bool b => a == b
  | .num a, .num b => a == b
  | .str a, .str b => a == b
  | .arr xs, .arr ys => Json.beqList xs ys
  | .obj xs, .obj ys => Json.beqObj xs ys
  | _, _ => false
termination_by a _ => sizeOf a

def Json.beqList : List Json → List Json → Bool
  | [], [] => true
  | x :: xs, y :: ys => Json.beq x y && Json.beqList xs ys
  | _, _ => false
termination_by a _ => sizeOf a

def Json.beqObj : List (String × Json) → List (String × Json) → Bool
  | [], [] => true
  | (k, v) :: xs, (k', v') :: ys => k == k' && Json.beq v v' && Json.beqObj xs ys
  | _, _ => false
termination_by a _ => sizeOf a

end

mutual

theorem Json.beq_refl : (j : Json) → Json.beq j j = true
  | .null => by simp [Json.beq]
  | .bool b => by simp [Json.beq]
  | .num n => by simp [Json.beq]
  | .str s => by simp [Json.beq]
  | .arr xs => by simp [Json.beq, Json.beqList_refl xs]
  | .obj xs => by simp [Json.beq, Json.beqObj_refl xs]
termination_by j => sizeOf j

theorem Json.beqList_refl : (xs : List Json) → Json.beqList xs xs = true
  | [] => by simp [Json.beqList]
  | x :: xs => by simp [Json.beqList, Json.beq_refl x, Json.beqList_refl xs]
termination_by xs => sizeOf xs

theorem Json.beqObj_refl : (xs : List (String × Json)) → Json.beqObj xs xs = true
  | [] => by simp [Json.beqObj]
  | (k, v) :: xs => by simp [Json.beqObj, Json.beq_refl v, Json.beqObj_refl xs]
termination_by xs => sizeOf xs

end

mutual

theorem Json.eq_of_beq : (a b : Json) → Json.beq a b = true → a = b
  | .null, .null, _ => rfl
  | .bool x, .bool y, h => by simp [Json.beq] at h; rw [h]
  | .num x, .num y, h => by simp [Json.beq] at h; rw [h]
  | .str x, .str y, h => by simp [Json.beq] at h; rw [h]
  | .arr xs, .arr ys, h => by
      rw [Json.eqList_of_beq xs ys (by simpa [Json.beq] using h)]
  | .obj xs, .obj ys, h => by
      rw [Json.eqObj_of_beq xs ys (by simpa [Json.beq] using h)]
  | .null, .bool _, h | .null, .num _, h | .null, .str _, h
  | .null, .arr _, h | .null, .obj _, h
  | .bool _, .null, h | .bool _, .num _, h | .bool _, .str _, h
  | .bool _, .arr _, h | .bool _, .obj _, h
  | .num _, .null, h | .num _, .bool _, h | .num _, .str _, h
  | .num _, .arr _, h | .num _, .obj _, h
  | .str _, .null, h | .str _, .bool _, h | .str _, .num _, h
  | .str _, .arr _, h | .str _, .obj _, h
  | .arr _, .null, h | .arr _, .bool _, h | .arr _, .num _, h
  | .arr _, .str _, h | .arr _, .obj _, h
  | .obj _, .null, h | .obj _, .bool _, h | .obj _, .num _, h
  | .obj _, .str _, h | .obj _, .arr _, h => by simp [Json.beq] at h
termination_by a _ _ => sizeOf a

theorem Json.eqList_of_beq : (xs ys : List Json) → Json.beqList xs ys = true → xs = ys
  | [], [], _ => rfl
  | x :: xs, y :: ys, h => by
      simp only [Json.beqList, Bool.and_eq_true] at h
      rw [Json.eq_of_beq x y h.1, Json.eqList_of_beq xs ys h.2]
  | [], _ :: _, h => by simp [Json.beqList] at h
  | _ :: _, [], h => by simp [Json.beqList] at h
termination_by xs _ _ => sizeOf xs

theorem Json.eqObj_of_beq :
    (xs ys : List (String × Json)) → Json.beqObj xs ys = true → xs = ys
  | [], [], _ => rfl
  | (k, v) :: xs, (k', v') :: ys, h => by
      simp only [Json.beqObj, Bool.and_eq_true, beq_iff_eq] at h
      rw [h.1.1, Json.eq_of_beq v v' h.1.2, Json.eqObj_of_beq xs ys h.2]
  | [], _ :: _, h => by simp [Json.beqObj] at h
  | _ :: _, [], h => by simp [Json.beqObj] at h
termination_by xs _ _ => sizeOf xs

end

instance : BEq Json := ⟨Json.beq⟩

theorem Json.beq_def (a b : Json) : (a == b) = Json.beq a b := rfl

instance : LawfulBEq Json where
  eq_of_beq h := Json.eq_of_beq _ _ h
  rfl := Json.beq_refl _

instance : DecidableEq Json := fun a b =>
  decidable_of_iff (a == b) (by simp)

/-- Python `isinstance(x, (dict, list))`: the values `deep_merge` recurses into. -/
def mergeable : Json → Bool
  | .obj _ => true
  | .arr _ => true
  | _ => false

/-- Python dict lookup `d.get(k)` on an insertion-ordered dict (generic in the
key type: the merge uses dicts keyed by strings and, for `destination_map`,
by `id` values). -/
def dget {κ β : Type} [BEq κ] (kvs : List (κ × β)) (k : κ) : Option β :=
  (kvs.find? (fun kv => kv.1 == k)).map (fun kv => kv.2)

/-- Python dict assignment `d[k] = v`: update in place (the entry keeps its
position) if the key is present, else append. -/
def dset {κ β : Type} [BEq κ] (kvs : List (κ × β)) (k : κ) (v : β) : List (κ × β) :=
  if kvs.any (fun kv => kv.1 == k) then
    kvs.map (fun kv => if kv.1 == k then (k, v) else kv)
  else
    kvs ++ [(k, v)]

/-- Python `isinstance(item, dict) and "id" in item` for a JSON value. -/
def isIdDict : Json → Bool
  | .obj kvs => kvs.any (fun kv => kv.1 == "id")
  | _ => false

/-- `item["id"]` for an object known to contain an `"id"` key
(`Json.null` as an unreachable default). -/
def itemId (j : Json) : Json :=
  match j with
  | .obj kvs => ((kvs.find? (fun kv => kv.1 == "id")).map (fun kv => kv.2)).getD .null
  | _ => .null

/-- `destination_map = {item["id"]: item for item in destination}`
(json_builder.py line 31). -/
def buildIdMap : List Json → List (Json × Json) → List (Json × Json)
  | [], m => m
  | item :: rest, m => buildIdMap rest (dset m (itemId item) item)

/-- Plain-list branch of `deep_merge` (json_builder.py lines 41-44):
`for item in source: if item not in destination: destination.append(item)`. -/
def appendUnique : List Json → List Json → List Json
  | [], d => d
  | item :: rest, d =>
      appendUnique rest (if d.any (fun y => y == item) then d else d ++ [item])

mutual

/-- `deep_merge(source, destination)` from `src/api_generator/json_builder.py`
lines 6-46, written functionally (the Python code mutates `destination` and
returns it; this definition returns the same final value). -/
def deep_merge : Json → Json → Json
  | .obj s, .obj d => .obj (mergeEntries s d)
  | .arr s, .arr d =>
      if (s.all isIdDict) && (d.all isIdDict) then
        .arr ((mergeKeyed s (buildIdMap d [])).map (fun kv => kv.2))
      else
        .arr (appendUnique s d)
  | s, _ => s
termination_by s _ => sizeOf s

/-- Dict-dict branch of `deep_merge` (lines 15-25): iterate over the entries of
`source`, merging into / overwriting the entry of `destination`. -/
def mergeEntries : List (String × Json) → List (String × Json) → List (String × Json)
  | [], d => d
  | (k, v) :: rest, d =>
      let d' :=
        match dget d k with
        | some w => if mergeable w && mergeable v then dset d k (deep_merge v w) else dset d k v
        | none => dset d k v
      mergeEntries rest d'
termination_by s _ => sizeOf s

/-- Keyed-list branch of `deep_merge` (lines 31-39): fold the source items into
`destination_map`. -/
def mergeKeyed : List Json → List (Json × Json) → List (Json × Json)
  | [], m => m
  | item :: rest, m =>
      let m' :=
        match dget m (itemId item) with
        | some old => dset m (itemId item) (deep_merge item old)
        | none => dset m (itemId item) item
      mergeKeyed rest m'
termination_by s _ => sizeOf s

end

/-- `save_api_file(file_path, data)` from json_builder.py lines 49-74, modelled
on the JSON content level: `existing` is the parse of the current file contents
(`none` when the file is absent or its JSON is undecodable, which the code
treats as no existing data); the result is the JSON value written back. -/
def save_api_file (existing : Option Json) (data : Json) : Json :=
  match existing with
  | some e => deep_merge data e
  | none => data

/-- `d.get(k)` / `d[k]` on a `Json` value that is an object (`none` otherwise);
used to state key-preservation of the dict-dict merge branch. -/
def jget : Json → String → Option Json
  | .obj kvs, k => dget kvs k
  | _, _ => none

section DictLemmas

variable {κ β : Type} [BEq κ] [LawfulBEq κ] [DecidableEq κ]

@[simp] theorem dget_nil (k : κ) : dget ([] : List (κ × β)) k = none := rfl

theorem dget_cons (kv : κ × β) (rest : List (κ × β)) (k : κ) :
    dget (kv :: rest) k = if kv.1 = k then some kv.2 else dget rest k := by
  by_cases h : kv.1 = k <;> simp [dget, List.find?_cons, h]

theorem dset_cons (kv : κ × β) (rest : List (κ × β)) (k : κ)
    (v : β) :
    dset (kv :: rest) k v =
      if kv.1 = k then (k, v) :: rest.map (fun kv => if kv.1 == k then (k, v) else kv)
      else kv :: dset rest k v := by
  unfold dset
  by_cases h : kv.1 = k
  · simp [h]
  · by_cases h2 : rest.any (fun kv => kv.1 == k) = true <;> simp [h, h2]

theorem dget_map_update_ne (d : List (κ × β)) (k' k : κ) (v : β)
    (h : k ≠ k') :
    dget (d.map (fun kv => if kv.1 == k' then (k', v) else kv)) k = dget d k := by
  induction d with
  | nil => rfl
  | cons kv rest ih =>
      rw [List.map_cons]
      by_cases h1 : kv.1 = k'
      · rw [show (if kv.1 == k' then (k', v) else kv) = (k', v) by simp [h1],
            dget_cons, dget_cons, if_neg (show ¬(k', v).1 = k from Ne.symm h),
            if_neg (show ¬kv.1 = k by rw [h1]; exact Ne.symm h)]
        exact ih
      · rw [show (if kv.1 == k' then (k', v) else kv) = kv by simp [h1],
            dget_cons, dget_cons]
        by_cases h2 : kv.1 = k
        · rw [if_pos h2, if_pos h2]
        · rw [if_neg h2, if_neg h2]
          exact ih

theorem dget_append_single_ne (d : List (κ × β)) (k' k : κ) (v : β)
    (h : k ≠ k') : dget (d ++ [(k', v)]) k = dget d k := by
  induction d with
  | nil => simp [dget_cons, Ne.symm h]
  | cons kv rest ih =>
      rw [List.cons_append, dget_cons, dget_cons]
      by_cases h2 : kv.1 = k
      · rw [if_pos h2, if_pos h2]
      · rw [if_neg h2, if_neg h2]
        exact ih

theorem dget_dset_ne (d : List (κ × β)) (k' k : κ) (v : β)
    (h : k ≠ k') : dget (dset d k' v) k = dget d k := by
  unfold dset
  by_cases hc : d.any (fun kv => kv.1 == k') = true
  · rw [if_pos hc]
    exact dget_map_update_ne d k' k v h
  · rw [if_neg hc]
    exact dget_append_single_ne d k' k v h

theorem dget_of_mem_nodup (d : List (κ × β)) (k : κ) (v : β)
    (hmem : (k, v) ∈ d) (hnd : (d.map Prod.fst).Nodup) : dget d k = some v := by
  induction d with
  | nil => simp at hmem
  | cons kv rest ih =>
      simp only [List.map_cons, List.nodup_cons] at hnd
      rw [dget_cons]
      rcases List.mem_cons.mp hmem with h | h
      · rw [if_pos (by rw [← h]), ← h]
      · have hne : kv.1 ≠ k := by
          intro he
          exact hnd.1 (he ▸ List.mem_map_of_mem Prod.fst h)
        rw [if_neg hne]
        exact ih h hnd.2

theorem entry_eq_of_nodup (d : List (κ × β)) (k : κ) (v : β)
    (hmem : (k, v) ∈ d) (hnd : (d.map Prod.fst).Nodup)
    (kv' : κ × β) (h' : kv' ∈ d) (hk : kv'.1 = k) : kv' = (k, v) := by
  have h1 := dget_of_mem_nodup d k v hmem hnd
  have h2 : dget d k = some kv'.2 := by
    apply dget_of_mem_nodup d k kv'.2 _ hnd
    rw [← hk]
    simpa using h'
  rw [h1] at h2
  have : kv'.2 = v := by injection h2.symm
  calc kv' = (kv'.1, kv'.2) := rfl
    _ = (k, v) := by rw [hk, this]

theorem dset_of_mem (d : List (κ × β)) (k : κ) (v : β)
    (hmem : (k, v) ∈ d) (hnd : (d.map Prod.fst).Nodup) : dset d k v = d := by
  unfold dset
  have hany : d.any (fun kv => kv.1 == k) = true := by
    simp only [List.any_eq_true]
    exact ⟨(k, v), hmem, by simp⟩
  rw [if_pos hany]
  have hcongr : ∀ kv' ∈ d, (if kv'.1 == k then (k, v) else kv') = id kv' := by
    intro kv' h'
    by_cases hk : kv'.1 = k
    · simp only [hk, beq_self_eq_true, if_pos, id]
      exact (entry_eq_of_nodup d k v hmem hnd kv' h' hk).symm
    · simp [hk]
  rw [List.map_congr_left hcongr, List.map_id]

theorem dget_eq_none_iff (m : List (κ × β)) (k : κ) :
    dget m k = none ↔ k ∉ m.map Prod.fst := by
  induction m with
  | nil => simp
  | cons kv rest ih =>
      rw [dget_cons]
      by_cases h : kv.1 = k
      · simp [h]
      · simp only [if_neg h, ih, List.map_cons, List.mem_cons, not_or]
        constructor
        · exact fun hn => ⟨fun he => h he.symm, hn⟩
        · exact fun hn => hn.2

theorem dget_eq_some_mem (m : List (κ × β)) (k : κ) (v : β)
    (h : dget m k = some v) : (k, v) ∈ m := by
  induction m with
  | nil => simp [dget] at h
  | cons kv rest ih =>
      rw [dget_cons] at h
      by_cases h1 : kv.1 = k
      · rw [if_pos h1] at h
        injection h with h
        have hkv : kv = (k, v) := by
          calc kv = (kv.1, kv.2) := rfl
            _ = (k, v) := by rw [h1, h]
        rw [← hkv]
        exact List.mem_cons_self kv rest
      · rw [if_neg h1] at h
        exact List.mem_cons_of_mem kv (ih h)

theorem dset_not_mem (m : List (κ × β)) (k : κ) (v : β)
    (h : k ∉ m.map Prod.fst) : dset m k v = m ++ [(k, v)] := by
  have hany : m.any (fun kv => kv.1 == k) = false := by
    rw [List.any_eq_false]
    intro kv hkv
    simp only [beq_iff_eq]
    intro he
    exact h (he ▸ List.mem_map_of_mem Prod.fst hkv)
  simp [dset, hany]

theorem dset_keys_of_mem (m : List (κ × β)) (k : κ) (v : β)
    (h : k ∈ m.map Prod.fst) :
    (dset m k v).map Prod.fst = m.map Prod.fst := by
  have hany : m.any (fun kv => kv.1 == k) = true := by
    rw [List.any_eq_true]
    obtain ⟨kv, hkv, hfst⟩ := List.mem_map.mp h
    exact ⟨kv, hkv, by simp [hfst]⟩
  rw [dset, if_pos hany, List.map_map]
  apply List.map_congr_left
  intro kv _
  by_cases h1 : kv.1 = k <;> simp [h1]

theorem dset_entries_of_mem (m : List (κ × β)) (k : κ) (v : β)
    (h : k ∈ m.map Prod.fst) :
    dset m k v = m.map (fun kv => if kv.1 == k then (k, v) else kv) := by
  have hany : m.any (fun kv => kv.1 == k) = true := by
    rw [List.any_eq_true]
    obtain ⟨kv, hkv, hfst⟩ := List.mem_map.mp h
    exact ⟨kv, hkv, by simp [hfst]⟩
  rw [dset, if_pos hany]

theorem any_key_eq_of_keys_eq (m m' : List (κ × β)) (x : κ)
    (h : m.map Prod.fst = m'.map Prod.fst) :
    m.any (fun kv => kv.1 == x) = m'.any (fun kv => kv.1 == x) := by
  have h1 : ∀ mm : List (κ × β),
      mm.any (fun kv => kv.1 == x) = (mm.map Prod.fst).any (fun y => y == x) := by
    intro mm
    induction mm with
    | nil => rfl
    | cons kv rest ih => simp [List.any_cons, ih]
  rw [h1, h1, h]

end DictLemmas

/-- Keys present only in the destination dict are untouched by the dict-dict
merge loop: the loop assigns only at keys of `source`. -/
theorem mergeEntries_dget_of_not_mem (s : List (String × Json)) (k : String)
    (hk : k ∉ s.map Prod.fst) :
    ∀ d : List (String × Json), dget (mergeEntries s d) k = dget d k := by
  induction s with
  | nil => intro d; simp [mergeEntries]
  | cons kv rest ih =>
      obtain ⟨k', v⟩ := kv
      simp only [List.map_cons, List.mem_cons, not_or] at hk
      intro d
      simp only [mergeEntries]
      rw [ih hk.2]
      rcases h2 : dget d k' with _ | w <;> simp only [h2]
      · exact dget_dset_ne d k' k v hk.1
      · split
        · exact dget_dset_ne d k' k _ hk.1
        · exact dget_dset_ne d k' k v hk.1

/-- The `new` object of the spec's merge-preserves-untouched-fields example:
`{"id":"a","excerpt":{"en":"x"}}`. -/
def mergeExampleNew : Json :=
  .obj [("id", .str "a"), ("excerpt", .obj [("en", .str "x")])]

/-- The `old` object of the spec's merge-preserves-untouched-fields example:
`{"id":"a","title":"T","excerpt":{"en":"x"}}`. -/
def mergeExampleOld : Json :=
  .obj [("id", .str "a"), ("title", .str "T"), ("excerpt", .obj [("en", .str "x")])]

/-- **C3**: for every two JSON objects `new` and `old`, every key present in
`old` but absent from `new` keeps exactly its old value in
`deep_merge(new, old)`; and in particular merging
`{"id":"a","excerpt":{"en":"x"}}` into `{"id":"a","title":"T","excerpt":{"en":"x"}}`
yields `{"id":"a","title":"T","excerpt":{"en":"x"}}` unchanged. -/
theorem deep_merge_preserves_old_only_keys (s d : List (String × Json)) (k : String)
    (hk : k ∉ s.map Prod.fst) :
    jget (deep_merge (.obj s) (.obj d)) k = jget (.obj d) k ∧
    deep_merge mergeExampleNew mergeExampleOld = mergeExampleOld := by
  constructor
  · simp only [deep_merge, jget]
    exact mergeEntries_dget_of_not_mem s k hk d
  · simp [mergeExampleNew, mergeExampleOld, deep_merge, mergeEntries, dget, dset,
      mergeable, List.find?]

/-- Witness for C3 at the spec's own example: `"title"` is absent from the new
object's keys, and its old value survives the merge. -/
theorem deep_merge_preserves_old_only_keys_witness :
    jget (deep_merge mergeExampleNew mergeExampleOld) "title" =
      jget mergeExampleOld "title" :=
  (deep_merge_preserves_old_only_keys
    [("id", .str "a"), ("excerpt", .obj [("en", .str "x")])]
    [("id", .str "a"), ("title", .str "T"), ("excerpt", .obj [("en", .str "x")])]
    "title" (by decide)).1

/-- How one `destination_map` entry ends up after the keyed-list merge loop:
replaced by the recursive merge of the (unique) source item with the same id,
or left alone. Used only to state `mergeKeyed_spec`. -/
def updOf (s : List Json) (kv : Json × Json) : Json × Json :=
  match s.find? (fun n => itemId n == kv.1) with
  | some n => (kv.1, deep_merge n kv.2)
  | none => kv

/-- The keyed-list merge loop, characterized: when the map's keys and the
source items' ids are free of duplicates, existing entries are merged in place
(order kept) and fresh items are appended in source order. -/
theorem mergeKeyed_spec : ∀ (s : List Json) (m : List (Json × Json)),
    (m.map Prod.fst).Nodup → (s.map itemId).Nodup →
    mergeKeyed s m =
      m.map (updOf s) ++
        (s.filter (fun n => !(m.any (fun kv => kv.1 == itemId n)))).map
          (fun n => (itemId n, n)) := by
  intro s
  induction s with
  | nil =>
      intro m hm _
      simp only [mergeKeyed, List.filter_nil, List.map_nil, List.append_nil]
      have : ∀ kv ∈ m, updOf [] kv = id kv := by
        intro kv _
        simp [updOf]
      rw [List.map_congr_left this, List.map_id]
  | cons item rest ih =>
      intro m hm hs
      simp only [List.map_cons, List.nodup_cons] at hs
      obtain ⟨hid_notin, hs'⟩ := hs
      simp only [mergeKeyed]
      rcases h2 : dget m (itemId item) with _ | old <;> simp only [h2]
      · -- fresh id: the item is appended to the map
        have hfresh : itemId item ∉ m.map Prod.fst := (dget_eq_none_iff m _).mp h2
        rw [dset_not_mem m _ item hfresh]
        have hnd' : ((m ++ [(itemId item, item)]).map Prod.fst).Nodup := by
          rw [List.map_append]
          rw [List.nodup_append]
          exact ⟨hm, List.nodup_singleton _, by simpa using hfresh⟩
        rw [ih (m ++ [(itemId item, item)]) hnd' hs']
        rw [List.map_append]
        have hu1 : [(itemId item, item)].map (updOf rest) = [(itemId item, item)] := by
          have : rest.find? (fun n => itemId n == itemId item) = none := by
            rw [List.find?_eq_none]
            intro n hn
            simp only [beq_iff_eq]
            exact fun he => hid_notin (he ▸ List.mem_map_of_mem itemId hn)
          simp [updOf, this]
        rw [hu1]
        have hu2 : m.map (updOf rest) = m.map (updOf (item :: rest)) := by
          apply List.map_congr_left
          intro kv hkv
          have hne : (itemId item == kv.1) = false := by
            simp only [beq_eq_false_iff_ne, ne_eq]
            intro he
            exact hfresh (he ▸ List.mem_map_of_mem Prod.fst hkv)
          simp [updOf, List.find?_cons, hne]
        have hf1 : (item :: rest).filter
            (fun n => !(m.any (fun kv => kv.1 == itemId n))) =
            item :: rest.filter (fun n => !(m.any (fun kv => kv.1 == itemId n))) := by
          rw [List.filter_cons]
          have : m.any (fun kv => kv.1 == itemId item) = false := by
            rw [List.any_eq_false]
            intro kv hkv
            simp only [beq_iff_eq]
            intro he
            exact hfresh (he ▸ List.mem_map_of_mem Prod.fst hkv)
          simp [this]
        have hf2 : rest.filter
              (fun n => !((m ++ [(itemId item, item)]).any (fun kv => kv.1 == itemId n))) =
            rest.filter (fun n => !(m.any (fun kv => kv.1 == itemId n))) := by
          apply List.filter_congr
          intro n hn
          have : (itemId item == itemId n) = false := by
            simp only [beq_eq_false_iff_ne, ne_eq]
            exact fun he => hid_notin (he ▸ List.mem_map_of_mem itemId hn)
          simp [List.any_append, this]
        rw [hf2, hf1, List.map_cons, hu2]
        simp [List.append_assoc]
      · -- id already present: the existing entry is merged in place
        have hmem : (itemId item, old) ∈ m := dget_eq_some_mem m _ old h2
        have hkey : itemId item ∈ m.map Prod.fst :=
          List.mem_map_of_mem Prod.fst hmem
        rw [dset_entries_of_mem m _ _ hkey]
        have hkeys : ((m.map (fun kv =>
            if kv.1 == itemId item then (itemId item, deep_merge item old) else kv)).map
              Prod.fst) = m.map Prod.fst := by
          rw [← dset_entries_of_mem m _ _ hkey]
          exact dset_keys_of_mem m _ _ hkey
        rw [ih _ (hkeys ▸ hm) hs']
        have hu : (m.map (fun kv =>
            if kv.1 == itemId item then (itemId item, deep_merge item old) else kv)).map
              (updOf rest) = m.map (updOf (item :: rest)) := by
          rw [List.map_map]
          apply List.map_congr_left
          intro kv hkv
          by_cases hk : kv.1 = itemId item
          · have hkv_eq : kv = (itemId item, old) :=
              entry_eq_of_nodup m (itemId item) old hmem hm kv hkv hk
            have hfind : rest.find? (fun n => itemId n == itemId item) = none := by
              rw [List.find?_eq_none]
              intro n hn
              simp only [beq_iff_eq]
              exact fun he => hid_notin (he ▸ List.mem_map_of_mem itemId hn)
            rw [hkv_eq]
            simp [updOf, List.find?_cons, hfind]
          · have hbeq : (kv.1 == itemId item) = false := by simpa using hk
            have hbeq' : (itemId item == kv.1) = false := by
              simp only [beq_eq_false_iff_ne, ne_eq]
              exact fun he => hk he.symm
            simp [Function.comp, updOf, List.find?_cons, hbeq, hbeq']
        have hf : (item :: rest).filter
              (fun n => !(m.any (fun kv => kv.1 == itemId n))) =
            rest.filter (fun n => !(m.any (fun kv => kv.1 == itemId n))) := by
          rw [List.filter_cons]
          have : m.any (fun kv => kv.1 == itemId item) = true := by
            rw [List.any_eq_true]
            exact ⟨(itemId item, old), hmem, by simp⟩
          simp [this]
        have hfm : rest.filter (fun n => !((m.map (fun kv =>
              if kv.1 == itemId item then (itemId item, deep_merge item old) else kv)).any
                (fun kv => kv.1 == itemId n))) =
            rest.filter (fun n => !(m.any (fun kv => kv.1 == itemId n))) := by
          apply List.filter_congr
          intro n hn
          rw [any_key_eq_of_keys_eq _ m _ hkeys]
        rw [hu, hf, hfm]

/-- `{item["id"]: item for item in destination}` with pairwise distinct ids and
fresh accumulator keys is just the list of `(id, item)` pairs. -/
theorem buildIdMap_eq : ∀ (d : List Json) (m : List (Json × Json)),
    (d.map itemId).Nodup → (∀ o ∈ d, itemId o ∉ m.map Prod.fst) →
    buildIdMap d m = m ++ d.map (fun o => (itemId o, o)) := by
  intro d
  induction d with
  | nil => intro m _ _; simp [buildIdMap]
  | cons item rest ih =>
      intro m hnd hfresh
      simp only [List.map_cons, List.nodup_cons] at hnd
      simp only [buildIdMap]
      rw [dset_not_mem m _ item (hfresh item (List.mem_cons_self _ _))]
      have hfresh' : ∀ o ∈ rest,
          itemId o ∉ (m ++ [(itemId item, item)]).map Prod.fst := by
        intro o ho
        rw [List.map_append]
        simp only [List.mem_append, not_or]
        refine ⟨hfresh o (List.mem_cons_of_mem _ ho), ?_⟩
        simp only [List.map_cons, List.map_nil, List.mem_singleton]
        exact fun h => hnd.1 (h ▸ List.mem_map_of_mem itemId ho)
      rw [ih (m ++ [(itemId item, item)]) hnd.2 hfresh']
      simp [List.append_assoc]

/-- The plain-list merge loop appends nothing when every source element is
already present in the destination. -/
theorem appendUnique_subset : ∀ (s d : List Json), (∀ x ∈ s, x ∈ d) →
    appendUnique s d = d := by
  intro s
  induction s with
  | nil => intro d _; rfl
  | cons item rest ih =>
      intro d hsub
      simp only [appendUnique]
      have hany : d.any (fun y => y == item) = true := by
        rw [List.any_eq_true]
        exact ⟨item, hsub item (List.mem_cons_self _ _), by simp⟩
      rw [if_pos hany]
      exact ih d (fun x hx => hsub x (List.mem_cons_of_mem _ hx))

/-- The dict-dict merge loop is the identity when merging a dict into itself,
provided the keys are distinct and each value merges idempotently. -/
theorem mergeEntries_self : ∀ (s d : List (String × Json)),
    (d.map Prod.fst).Nodup → (∀ kv ∈ s, kv ∈ d) →
    (∀ kv ∈ s, deep_merge kv.2 kv.2 = kv.2) →
    mergeEntries s d = d := by
  intro s
  induction s with
  | nil => intro d _ _ _; simp [mergeEntries]
  | cons kv rest ih =>
      obtain ⟨k, v⟩ := kv
      intro d hnd hsub hidem
      have hmem : (k, v) ∈ d := hsub (k, v) (List.mem_cons_self _ _)
      have hget : dget d k = some v := dget_of_mem_nodup d k v hmem hnd
      have hv : deep_merge v v = v := hidem (k, v) (List.mem_cons_self _ _)
      have hset : dset d k v = d := dset_of_mem d k v hmem hnd
      simp only [mergeEntries, hget, hv, ite_self, hset]
      exact ih d hnd (fun kv h => hsub kv (List.mem_cons_of_mem _ h))
        (fun kv h => hidem kv (List.mem_cons_of_mem _ h))

/-- Pairwise distinctness of a key list, as an executable Boolean. -/
def nodupKeys {κ : Type} [BEq κ] : List κ → Bool
  | [] => true
  | x :: rest => !(rest.any (fun y => y == x)) && nodupKeys rest

theorem nodupKeys_iff {κ : Type} [BEq κ] [LawfulBEq κ] (l : List κ) :
    nodupKeys l = true ↔ l.Nodup := by
  induction l with
  | nil => simp [nodupKeys]
  | cons x rest ih =>
      simp only [nodupKeys, Bool.and_eq_true, Bool.not_eq_true', List.any_eq_false,
        beq_iff_eq, List.nodup_cons, ih]
      constructor
      · exact fun h => ⟨fun hmem => h.1 x hmem rfl, h.2⟩
      · exact fun h => ⟨fun y hy he => h.1 (he ▸ hy), h.2⟩

mutual

/-- The well-formedness condition under which merging a value into itself is
the identity: every object has pairwise distinct keys (as every Python dict
does), and every keyed array (one whose elements are all objects carrying an
`"id"` key) has pairwise distinct ids — recursively. -/
def canonical : Json → Bool
  | .obj kvs => nodupKeys (kvs.map Prod.fst) && canonicalEntries kvs
  | .arr xs => (!(xs.all isIdDict) || nodupKeys (xs.map itemId)) && canonicalList xs
  | _ => true
termination_by j => sizeOf j

def canonicalEntries : List (String × Json) → Bool
  | [] => true
  | (_, v) :: rest => canonical v && canonicalEntries rest
termination_by l => sizeOf l

def canonicalList : List Json → Bool
  | [] => true
  | x :: rest => canonical x && canonicalList rest
termination_by l => sizeOf l

end

theorem canonicalEntries_iff (kvs : List (String × Json)) :
    canonicalEntries kvs = true ↔ ∀ kv ∈ kvs, canonical kv.2 = true := by
  induction kvs with
  | nil => simp [canonicalEntries]
  | cons kv rest ih =>
      obtain ⟨k, v⟩ := kv
      simp [canonicalEntries, ih]

theorem canonicalList_iff (xs : List Json) :
    canonicalList xs = true ↔ ∀ x ∈ xs, canonical x = true := by
  induction xs with
  | nil => simp [canonicalList]
  | cons x rest ih => simp [canonicalList, ih]

/-- With pairwise distinct ids, looking an element's own id up in its list
finds exactly that element. -/
theorem find?_self_of_nodup_ids : ∀ (xs : List Json) (o : Json), o ∈ xs →
    (xs.map itemId).Nodup →
    xs.find? (fun n => itemId n == itemId o) = some o := by
  intro xs
  induction xs with
  | nil => intro o ho; simp at ho
  | cons y rest ih =>
      intro o ho hnd
      simp only [List.map_cons, List.nodup_cons] at hnd
      rcases List.mem_cons.mp ho with h | h
      · subst h
        simp [List.find?_cons]
      · have hne : (itemId y == itemId o) = false := by
          simp only [beq_eq_false_iff_ne, ne_eq]
          exact fun he => hnd.1 (he ▸ List.mem_map_of_mem itemId h)
        simp only [List.find?_cons, hne]
        exact ih o h hnd.2

/-- Merging a canonical JSON value into itself is the identity
(strong induction on the size of the value). -/
theorem deep_merge_self_sized : ∀ (n : Nat) (x : Json), sizeOf x ≤ n →
    canonical x = true → deep_merge x x = x := by
  intro n
  induction n with
  | zero =>
      intro x hx hc
      exact absurd hx (by cases x <;> simp)
  | succ n ih =>
      intro x hx hc
      cases x with
      | null => simp [deep_merge]
      | bool b => simp [deep_merge]
      | num i => simp [deep_merge]
      | str s => simp [deep_merge]
      | obj kvs =>
          simp only [canonical, Bool.and_eq_true] at hc
          obtain ⟨hkeys, hentries⟩ := hc
          rw [nodupKeys_iff] at hkeys
          simp only [deep_merge]
          congr 1
          apply mergeEntries_self kvs kvs hkeys (fun kv h => h)
          intro kv hkv
          obtain ⟨k, v⟩ := kv
          apply ih v _ ((canonicalEntries_iff kvs).mp hentries (k, v) hkv)
          have h1 : sizeOf (k, v) < sizeOf kvs := List.sizeOf_lt_of_mem hkv
          have h2 : sizeOf (Json.obj kvs) = 1 + sizeOf kvs := by simp
          have h3 : sizeOf (k, v) = 1 + sizeOf k + sizeOf v := rfl
          omega
      | arr xs =>
          simp only [canonical, Bool.and_eq_true] at hc
          obtain ⟨hid, hels⟩ := hc
          have hcan : ∀ x ∈ xs, canonical x = true := (canonicalList_iff xs).mp hels
          have hsize : ∀ x ∈ xs, sizeOf x ≤ n := by
            intro x hxs
            have h1 : sizeOf x < sizeOf xs := List.sizeOf_lt_of_mem hxs
            have h2 : sizeOf (Json.arr xs) = 1 + sizeOf xs := by simp
            omega
          have hself : ∀ x ∈ xs, deep_merge x x = x := by
            intro x hxs
            exact ih x (hsize x hxs) (hcan x hxs)
          simp only [deep_merge]
          by_cases hall : (xs.all isIdDict) = true
          · rw [if_pos (by simp [hall])]
            have hnd : (xs.map itemId).Nodup := by
              rw [hall] at hid
              simpa [nodupKeys_iff] using hid
            rw [buildIdMap_eq xs [] hnd (by simp), List.nil_append]
            have hkeysnd : ((xs.map (fun o => (itemId o, o))).map Prod.fst).Nodup := by
              rw [List.map_map]
              simpa [Function.comp] using hnd
            rw [mergeKeyed_spec xs _ hkeysnd hnd]
            have hfilter : xs.filter (fun n =>
                !((xs.map (fun o => (itemId o, o))).any
                  (fun kv => kv.1 == itemId n))) = [] := by
              rw [List.filter_eq_nil_iff]
              intro n hn
              have : (xs.map (fun o => (itemId o, o))).any
                  (fun kv => kv.1 == itemId n) = true := by
                rw [List.any_eq_true]
                exact ⟨(itemId n, n), List.mem_map_of_mem _ hn, by simp⟩
              simp [this]
            rw [hfilter, List.map_nil, List.append_nil, List.map_map, List.map_map]
            congr 1
            have hpt : ∀ o ∈ xs,
                (((fun kv : Json × Json => kv.2) ∘ updOf xs) ∘ fun o => (itemId o, o)) o
                  = id o := by
              intro o ho
              simp only [Function.comp_apply, updOf, find?_self_of_nodup_ids xs o ho hnd,
                id_eq]
              exact hself o ho
            rw [List.map_congr_left hpt, List.map_id]
          · rw [if_neg (by simp [hall])]
            congr 1
            exact appendUnique_subset xs xs (fun x h => h)

theorem any_map_pair (d : List Json) (x : Json) :
    (d.map (fun o => (itemId o, o))).any (fun kv => kv.1 == x) =
      d.any (fun o => itemId o == x) := by
  induction d with
  | nil => rfl
  | cons o rest ih => simp [List.any_cons, ih]

/-- An id-keyed list with a duplicated id, `[{"id":1,"v":1},{"id":1,"v":2}]`:
the `destination_map` dict comprehension collapses its two elements. -/
def dupIdList : Json :=
  .arr [.obj [("id", .num 1), ("v", .num 1)], .obj [("id", .num 1), ("v", .num 2)]]

/-- **C1 counterexample**: `deep_merge(x, x) = x` does not hold for every JSON
value: for `x = [{"id":1,"v":1},{"id":1,"v":2}]` the keyed-list branch
collapses the duplicated id, so saving the same data a second time over the
file just written changes the file's JSON content. -/
theorem deep_merge_not_always_idempotent :
    deep_merge dupIdList dupIdList = .arr [.obj [("id", .num 1), ("v", .num 2)]] ∧
    save_api_file (some (save_api_file none dupIdList)) dupIdList ≠ dupIdList := by
  have h : deep_merge dupIdList dupIdList =
      .arr [.obj [("id", .num 1), ("v", .num 2)]] := by
    simp [dupIdList, deep_merge, mergeEntries, mergeKeyed, buildIdMap, appendUnique,
      dget, dset, isIdDict, itemId, mergeable, Json.beq_def, Json.beq, Json.beqList,
      Json.beqObj, List.find?]
  refine ⟨h, ?_⟩
  simp only [save_api_file, h]
  rw [dupIdList]
  intro heq
  injection heq with heq
  simp at heq

/-- **C1 (amended)**: for every JSON value `x` whose objects have pairwise
distinct keys (as every Python dict does) and whose keyed arrays carry pairwise
distinct ids, recursively (`canonical x`), `deep_merge(x, x) = x`; therefore
calling `save_api_file` a second time with identical data on the file it has
just written leaves the file's JSON content identical (entity files embed no
generation timestamp). -/
theorem save_api_file_idempotent (x : Json) (h : canonical x = true) :
    deep_merge x x = x ∧
    save_api_file (some (save_api_file none x)) x = x := by
  have hm := deep_merge_self_sized (sizeOf x) x le_rfl h
  exact ⟨hm, by simp [save_api_file, hm]⟩

/-- A canonical entity value shaped like a persisted document record. -/
def sampleEntity : Json :=
  .obj [("id", .str "doc1"), ("title", .str "T"),
        ("excerpt", .obj [("en", .str "x")]),
        ("items", .arr [.obj [("id", .num 1)], .obj [("id", .num 2)]])]

/-- Witness for the amended C1 at a concrete canonical entity. -/
theorem save_api_file_idempotent_witness :
    canonical sampleEntity = true ∧
    save_api_file (some (save_api_file none sampleEntity)) sampleEntity =
      sampleEntity := by
  have hc : canonical sampleEntity = true := by
    simp [sampleEntity, canonical, canonicalEntries, canonicalList, nodupKeys,
      isIdDict, itemId, List.find?, Json.beq_def, Json.beq]
  exact ⟨hc, (save_api_file_idempotent sampleEntity hc).2⟩

/-- **C2 counterexample**: when the old list carries a duplicated id, the
result is not "the elements of old in their original order": merging an empty
new list into `[{"id":1,"v":1},{"id":1,"v":2}]` yields a single element. -/
theorem deep_merge_keyed_collapses_duplicate_ids :
    deep_merge (.arr []) dupIdList = .arr [.obj [("id", .num 1), ("v", .num 2)]] ∧
    Json.arr [.obj [("id", .num 1), ("v", .num 2)]] ≠ dupIdList := by
  constructor
  · simp [dupIdList, deep_merge, mergeKeyed, buildIdMap, dget, dset, isIdDict,
      itemId, Json.beq_def, Json.beq, Json.beqList, Json.beqObj, List.find?]
  · intro heq
    rw [dupIdList] at heq
    injection heq with heq
    simp at heq

/-- **C2 (amended)**: for two JSON lists `new` and `old` in which every element
of both sides is an object containing an `"id"` key and the ids are pairwise
distinct within each list, `deep_merge(new, old)` returns the elements of `old`
in their original order — each element whose id occurs in `new` replaced by the
recursive merge of that new element into it — followed by the elements of `new`
whose ids do not occur in `old`, in their order in `new`; in particular merging
`[{"id":1,"v":2}]` into `[{"id":1,"v":1},{"id":2,"v":9}]` yields two elements,
element 1 updated to `v:2` and element 2 unchanged. -/
theorem deep_merge_keyed_lists (s d : List Json)
    (h1 : s.all isIdDict = true) (h2 : d.all isIdDict = true)
    (h3 : (s.map itemId).Nodup) (h4 : (d.map itemId).Nodup) :
    deep_merge (.arr s) (.arr d) =
      .arr (d.map (fun o => match s.find? (fun n => itemId n == itemId o) with
          | some n => deep_merge n o
          | none => o) ++
        s.filter (fun n => !(d.any (fun o => itemId o == itemId n)))) ∧
    deep_merge (.arr [.obj [("id", .num 1), ("v", .num 2)]])
        (.arr [.obj [("id", .num 1), ("v", .num 1)],
               .obj [("id", .num 2), ("v", .num 9)]]) =
      .arr [.obj [("id", .num 1), ("v", .num 2)],
            .obj [("id", .num 2), ("v", .num 9)]] := by
  constructor
  · simp only [deep_merge, h1, h2, Bool.and_self, if_true]
    rw [buildIdMap_eq d [] h4 (by simp), List.nil_append]
    have hkeysnd : ((d.map (fun o => (itemId o, o))).map Prod.fst).Nodup := by
      rw [List.map_map]
      simpa [Function.comp] using h4
    rw [mergeKeyed_spec s _ hkeysnd h3]
    rw [List.map_append, List.map_map, List.map_map]
    congr 1
    congr 1
    · apply List.map_congr_left
      intro o ho
      rcases hf : s.find? (fun n => itemId n == itemId o) with _ | nn <;>
        simp [Function.comp, updOf, hf]
    · have hfc : ∀ n ∈ s,
          (!((d.map (fun o => (itemId o, o))).any (fun kv => kv.1 == itemId n))) =
            (!(d.any (fun o => itemId o == itemId n))) := by
        intro n _
        rw [any_map_pair]
      rw [List.filter_congr hfc, List.map_map]
      have hid2 : ∀ n ∈ s.filter (fun x => !(d.any fun o => itemId o == itemId x)),
          ((fun kv : Json × Json => kv.2) ∘ fun n => (itemId n, n)) n = id n := by
        intro n _
        rfl
      rw [List.map_congr_left hid2, List.map_id]
  · simp [deep_merge, mergeEntries, mergeKeyed, buildIdMap, dget, dset, isIdDict,
      itemId, mergeable, Json.beq_def, Json.beq, Json.beqList, Json.beqObj,
      List.find?]

/-- Witness for the amended C2 at the spec's concrete example. -/
theorem deep_merge_keyed_lists_witness :
    deep_merge (.arr [.obj [("id", .num 1), ("v", .num 2)]])
        (.arr [.obj [("id", .num 1), ("v", .num 1)],
               .obj [("id", .num 2), ("v", .num 9)]]) =
      .arr [.obj [("id", .num 1), ("v", .num 2)],
            .obj [("id", .num 2), ("v", .num 9)]] :=
  (deep_merge_keyed_lists
    [.obj [("id", .num 1), ("v", .num 2)]]
    [.obj [("id", .num 1), ("v", .num 1)], .obj [("id", .num 2), ("v", .num 9)]]
    (by simp [isIdDict])
    (by simp [isIdDict])
    (by simp [itemId, List.find?])
    (by simp [itemId, List.find?])).2

/-! ## Date normalizer -/

/-- English month names (`month_names`, vatican_documents_index.py lines 25-28). -/
def month_names : List (String × Nat) :=
  [("january", 1), ("february", 2), ("march", 3), ("april", 4), ("may", 5),
   ("june", 6), ("july", 7), ("august", 8), ("september", 9), ("october", 10),
   ("november", 11), ("december", 12)]

/-- `month_names.get(name)`. -/
def lookupMonth (m : String) : Option Nat :=
  (month_names.find? (fun kv => kv.1 == m)).map (fun kv => kv.2)

/-- Gregorian leap-year rule, as validated by Python's `datetime`. -/
def isLeap (y : Nat) : Bool :=
  (y % 4 == 0 && y % 100 != 0) || y % 400 == 0

/-- Length of a month, per Python `datetime`'s day validation. -/
def daysInMonth (y m : Nat) : Nat :=
  if m = 2 then (if isLeap y then 29 else 28)
  else if m = 4 ∨ m = 6 ∨ m = 9 ∨ m = 11 then 30
  else 31

def pad2 (n : Nat) : String := if n < 10 then "0" ++ toString n else toString n

def pad4 (n : Nat) : String :=
  if n < 10 then "000" ++ toString n
  else if n < 100 then "00" ++ toString n
  else if n < 1000 then "0" ++ toString n
  else toString n

/-- `datetime(year, month, day).strftime("%Y-%m-%d")`, returning `none` exactly
when the `datetime` constructor raises `ValueError` (year outside
`MINYEAR..MAXYEAR`, month outside `1..12`, or day outside the month). -/
def mkDate (y m d : Nat) : Option String :=
  if 1 ≤ y ∧ y ≤ 9999 ∧ 1 ≤ m ∧ m ≤ 12 ∧ 1 ≤ d ∧ d ≤ daysInMonth y m then
    some (pad4 y ++ "-" ++ pad2 m ++ "-" ++ pad2 d)
  else none

/-- Split a character list at whitespace runs, dropping empty pieces
(the behaviour of Python's `str.split()` with no argument). -/
def splitWsAux : List Char → List Char → List (List Char)
  | [], acc => if acc.isEmpty then [] else [acc.reverse]
  | c :: cs, acc =>
      if c.isWhitespace then
        if acc.isEmpty then splitWsAux cs []
        else acc.reverse :: splitWsAux cs []
      else splitWsAux cs (c :: acc)

/-- Whitespace-separated tokens of a string. The three anchored date regexes
use `\s+` as their only separators and are applied to a stripped string, so a
regex match is exactly a 3-token whitespace split of the right token shapes
(stripping is subsumed: leading/trailing whitespace never yields a token). -/
def tokens (s : String) : List String :=
  (splitWsAux s.data []).map String.mk

/-- `\d{lo,hi}` as a whole-token test. -/
def digitsLen (t : String) (lo hi : Nat) : Bool :=
  decide (lo ≤ t.data.length) && decide (t.data.length ≤ hi) &&
    t.data.all Char.isDigit

/-- `\w+` as a whole-token test (ASCII word characters). -/
def isWordTok (t : String) : Bool :=
  decide (0 < t.data.length) && t.data.all (fun c => c.isAlphanum || c == '_')

def charsToNatAux : Nat → List Char → Nat
  | acc, [] => acc
  | acc, c :: cs => charsToNatAux (acc * 10 + (c.toNat - 48)) cs

/-- `int(tok)` for an all-digit token. -/
def natOf (t : String) : Nat := charsToNatAux 0 t.data

/-- `int(tok)`, `none` when `int` raises `ValueError`. Python also accepts
signs, surrounding whitespace and underscore separators; the corpus's tokens
are plain digit runs, which is what is modelled. -/
def pyIntDigits (t : String) : Option Nat :=
  if t.data ≠ [] ∧ t.data.all Char.isDigit then some (natOf t) else none

/-- Does the token end in a comma (`,?`/`,` right before the regexes' `\s+`)? -/
def endsComma (t : String) : Bool :=
  match t.data.getLast? with
  | some c => c == ','
  | none => false

/-- Drop the token's final character (peeling the matched comma). -/
def dropLastChar (t : String) : String := String.mk t.data.dropLast

/-- `str.lower()` (ASCII, which covers the English month names). -/
def strLower (s : String) : String := String.mk (s.data.map Char.toLower)

/-- `str.upper()` (ASCII, which covers the Roman numerals). -/
def strUpper (s : String) : String := String.mk (s.data.map Char.toUpper)

/-- Pattern 1 of `parse_document_date`: `^(\d{1,2})\s+(\w+)\s+(\d{4})$`,
continuing with the month lookup and `datetime` construction of lines 34-42. -/
def datePat1 (ts : List String) : Option String :=
  match ts with
  | [dd, mon, yy] =>
      if digitsLen dd 1 2 && isWordTok mon && digitsLen yy 4 4 then
        match lookupMonth mon with
        | some m => mkDate (natOf yy) m (natOf dd)
        | none => none
      else none
  | _ => none

/-- Pattern 2 of `parse_document_date`: `^(\w+)\s+(\d{1,2}),?\s+(\d{4})$`
(lines 45-53): the optional comma binds to the day token. -/
def datePat2 (ts : List String) : Option String :=
  match ts with
  | [mon, dd, yy] =>
      let dd' := if endsComma dd then dropLastChar dd else dd
      if isWordTok mon && digitsLen dd' 1 2 && digitsLen yy 4 4 then
        match lookupMonth mon with
        | some m => mkDate (natOf yy) m (natOf dd')
        | none => none
      else none
  | _ => none

/-- Pattern 3 of `parse_document_date`: `^(\w+)\s+(\d{1,2}),\s+(\d{4})$`
(lines 56-64): like pattern 2 but the comma is mandatory. -/
def datePat3 (ts : List String) : Option String :=
  match ts with
  | [mon, dd, yy] =>
      if endsComma dd then
        let dd' := dropLastChar dd
        if isWordTok mon && digitsLen dd' 1 2 && digitsLen yy 4 4 then
          match lookupMonth mon with
          | some m => mkDate (natOf yy) m (natOf dd')
          | none => none
        else none
      else none
  | _ => none

/-- `parse_document_date` from `src/scrapper/vatican_documents_index.py`
lines 19-66: strip and lowercase, then try the three anchored patterns in
order; any failed lookup or invalid `datetime` falls through to the next
pattern, and the function returns `None` when all three fail. -/
def parse_document_date (s : String) : Option String :=
  if s = "" then none
  else
    let ts := tokens (strLower s)
    match datePat1 ts with
    | some r => some r
    | none =>
        match datePat2 ts with
        | some r => some r
        | none => datePat3 ts

/-- The Roman-numeral month table of `parse_vatican_date`
(vatican_pope.py lines 24-27). -/
def roman_to_int : List (String × Nat) :=
  [("I", 1), ("II", 2), ("III", 3), ("IV", 4), ("V", 5), ("VI", 6),
   ("VII", 7), ("VIII", 8), ("IX", 9), ("X", 10), ("XI", 11), ("XII", 12)]

/-- `parse_vatican_date` from `src/scrapper/vatican_pope.py` lines 15-34:
replace dots by spaces, split; on exactly three parts look the middle one up
as an upper-cased Roman numeral and build the date. `int()` is modelled for
plain digit strings (`String.toNat?`); a non-numeric day or year makes the
`datetime` call raise and the function return `None`, as in the source. -/
def parse_vatican_date (s : String) : Option String :=
  if s = "" then none
  else
    match tokens (String.mk (s.data.map (fun c => if c = '.' then ' ' else c))) with
    | [dd, mon, yy] =>
        match (roman_to_int.find? (fun kv => kv.1 == strUpper mon)).map
            (fun kv => kv.2) with
        | some m =>
            match pyIntDigits yy, pyIntDigits dd with
            | some y, some d => mkDate y m d
            | _, _ => none
        | none => none
    | _ => none

theorem mkDate_some (y m d : Nat) (r : String) (h : mkDate y m d = some r) :
    (1 ≤ y ∧ y ≤ 9999 ∧ 1 ≤ m ∧ m ≤ 12 ∧ 1 ≤ d ∧ d ≤ daysInMonth y m) ∧
      r = pad4 y ++ "-" ++ pad2 m ++ "-" ++ pad2 d := by
  unfold mkDate at h
  split at h
  · exact ⟨by assumption, (Option.some.inj h).symm⟩
  · exact absurd h (by simp)

/-- A successful parse is always a validated calendar date in canonical form. -/
def IsCanonicalDate (r : String) : Prop :=
  ∃ y m d, 1 ≤ y ∧ y ≤ 9999 ∧ 1 ≤ m ∧ m ≤ 12 ∧ 1 ≤ d ∧ d ≤ daysInMonth y m ∧
    r = pad4 y ++ "-" ++ pad2 m ++ "-" ++ pad2 d

theorem datePat1_valid (ts : List String) (r : String) (h : datePat1 ts = some r) :
    IsCanonicalDate r := by
  simp only [datePat1] at h
  repeat' split at h
  all_goals
    first
      | (exact absurd h (by simp))
      | (obtain ⟨⟨h1, h2, h3, h4, h5, h6⟩, hr⟩ := mkDate_some _ _ _ _ h
         exact ⟨_, _, _, h1, h2, h3, h4, h5, h6, hr⟩)

theorem datePat2_valid (ts : List String) (r : String) (h : datePat2 ts = some r) :
    IsCanonicalDate r := by
  simp only [datePat2] at h
  repeat' split at h
  all_goals
    first
      | (exact absurd h (by simp))
      | (obtain ⟨⟨h1, h2, h3, h4, h5, h6⟩, hr⟩ := mkDate_some _ _ _ _ h
         exact ⟨_, _, _, h1, h2, h3, h4, h5, h6, hr⟩)

theorem datePat3_valid (ts : List String) (r : String) (h : datePat3 ts = some r) :
    IsCanonicalDate r := by
  simp only [datePat3] at h
  repeat' split at h
  all_goals
    first
      | (exact absurd h (by simp))
      | (obtain ⟨⟨h1, h2, h3, h4, h5, h6⟩, hr⟩ := mkDate_some _ _ _ _ h
         exact ⟨_, _, _, h1, h2, h3, h4, h5, h6, hr⟩)

theorem parse_document_date_valid (s r : String)
    (h : parse_document_date s = some r) : IsCanonicalDate r := by
  simp only [parse_document_date] at h
  split at h
  · exact absurd h (by simp)
  · rcases h1 : datePat1 (tokens (strLower s)) with _ | r1 <;> rw [h1] at h
    · rcases h2 : datePat2 (tokens (strLower s)) with _ | r2 <;> rw [h2] at h
      · exact datePat3_valid _ _ h
      · injection h with h
        subst h
        exact datePat2_valid _ _ h2
    · injection h with h
      subst h
      exact datePat1_valid _ _ h1

theorem parse_vatican_date_valid (s r : String)
    (h : parse_vatican_date s = some r) : IsCanonicalDate r := by
  simp only [parse_vatican_date] at h
  repeat' split at h
  all_goals
    first
      | (exact absurd h (by simp))
      | (obtain ⟨⟨h1, h2, h3, h4, h5, h6⟩, hr⟩ := mkDate_some _ _ _ _ h
         exact ⟨_, _, _, h1, h2, h3, h4, h5, h6, hr⟩)

/-- **C4**: the date normalizer (`parse_document_date` together with
`parse_vatican_date`) maps each of the three recognized shapes to the
canonical `YYYY-MM-DD` string — `"17 April 2003"` to `"2003-04-17"`,
`"November 28, 1959"` to `"1959-11-28"`, `"28.II.2013"` to `"2013-02-28"` —
with month names case-insensitive and Roman numerals I–XII mapping to months
1–12; calendar-invalid combinations (day 31 in a 30-day month, Feb 29 off
leap years) and unrecognized strings yield `None` rather than an exception,
and every non-`None` result is a validated calendar date in canonical form. -/
theorem date_normalizer_contract :
    parse_document_date "17 April 2003" = some "2003-04-17" ∧
    parse_document_date "November 28, 1959" = some "1959-11-28" ∧
    parse_vatican_date "28.II.2013" = some "2013-02-28" ∧
    (parse_document_date "17 APRIL 2003" = some "2003-04-17" ∧
     parse_document_date "17 april 2003" = some "2003-04-17" ∧
     parse_document_date "NOVEMBER 28, 1959" = some "1959-11-28") ∧
    (parse_vatican_date "1.I.2000" = some "2000-01-01" ∧
     parse_vatican_date "1.II.2000" = some "2000-02-01" ∧
     parse_vatican_date "1.III.2000" = some "2000-03-01" ∧
     parse_vatican_date "1.IV.2000" = some "2000-04-01" ∧
     parse_vatican_date "1.V.2000" = some "2000-05-01" ∧
     parse_vatican_date "1.VI.2000" = some "2000-06-01" ∧
     parse_vatican_date "1.VII.2000" = some "2000-07-01" ∧
     parse_vatican_date "1.VIII.2000" = some "2000-08-01" ∧
     parse_vatican_date "1.IX.2000" = some "2000-09-01" ∧
     parse_vatican_date "1.X.2000" = some "2000-10-01" ∧
     parse_vatican_date "1.XI.2000" = some "2000-11-01" ∧
     parse_vatican_date "1.XII.2000" = some "2000-12-01" ∧
     parse_vatican_date "28.ii.2013" = some "2013-02-28") ∧
    (parse_document_date "31 April 2003" = none ∧
     parse_document_date "29 February 2003" = none ∧
     parse_document_date "April 31, 2003" = none ∧
     parse_vatican_date "31.IV.2003" = none ∧
     parse_vatican_date "29.II.2003" = none ∧
     parse_document_date "not a date" = none ∧
     parse_vatican_date "not a date" = none ∧
     parse_document_date "" = none ∧
     parse_vatican_date "" = none) ∧
    (∀ s r, parse_document_date s = some r → IsCanonicalDate r) ∧
    (∀ s r, parse_vatican_date s = some r → IsCanonicalDate r) := by
  refine ⟨by decide, by decide, by decide,
    ⟨by decide, by decide, by decide⟩,
    ⟨by decide, by decide, by decide, by decide, by decide, by decide, by decide,
     by decide, by decide, by decide, by decide, by decide, by decide⟩,
    ⟨by decide, by decide, by decide, by decide, by decide, by decide, by decide,
     by decide, by decide⟩,
    parse_document_date_valid, parse_vatican_date_valid⟩

/-- Witness for C4's universal part, instantiated at `"17 April 2003"`. -/
theorem date_normalizer_contract_witness : IsCanonicalDate "2003-04-17" :=
  date_normalizer_contract.2.2.2.2.2.2.1 "17 April 2003" "2003-04-17" (by decide)

/-! ## Paginated posts listing (posts_generator.py) -/

/-- One page artifact of `create_paginated_posts_api`
(posts_generator.py lines 169-186): the `meta` block plus that page's slice of
the post list. `α` stands for the converted post objects — the pagination
slices the list `posts` whatever its elements are. -/
structure PageData (α : Type) where
  page : Nat
  per_page : Nat
  total_pages : Nat
  total_posts : Nat
  has_next : Bool
  has_prev : Bool
  next_page : Option Nat
  prev_page : Option Nat
  posts : List α

/-- `posts_per_page = 50` (line 158). -/
def posts_per_page : Nat := 50

/-- `total_pages = math.ceil(total_posts / posts_per_page)` (line 160). -/
def total_pages_of (n : Nat) : Nat := (n + posts_per_page - 1) / posts_per_page

/-- The page files written by `create_paginated_posts_api` (lines 169-193), in
page order: for `page_num` in `1..total_pages`, slice
`posts[start_idx:end_idx]` with `start_idx = (page_num-1)*50` and
`end_idx = min(start_idx+50, total_posts)`, and attach the `meta` block. -/
def mkPage {α : Type} (posts : List α) (pageNum : Nat) : PageData α :=
  let n := posts.length
  let tp := total_pages_of n
  let start := (pageNum - 1) * posts_per_page
  let stop := min (start + posts_per_page) n
  { page := pageNum
    per_page := posts_per_page
    total_pages := tp
    total_posts := n
    has_next := decide (pageNum < tp)
    has_prev := decide (pageNum > 1)
    next_page := if pageNum < tp then some (pageNum + 1) else none
    prev_page := if pageNum > 1 then some (pageNum - 1) else none
    posts := (posts.drop start).take (stop - start) }

def create_paginated_posts {α : Type} (posts : List α) : List (PageData α) :=
  (List.range (total_pages_of posts.length)).map (fun i => mkPage posts (i + 1))

/-- **C5**: for a corpus of `n` documents the paginated listing produces
`ceil(n/50)` page files; page `p` (1-based) carries
`min(50, n − (p−1)·50)` posts, `per_page = 50`, `total_posts = n`,
`has_prev` iff `p > 1` and `has_next` iff `p < total_pages`; for `n = 125`
there are 3 pages with 50/50/25 items, page 1 has `has_prev = false` and
page 3 has `has_next = false`. -/
theorem pagination_contract {α : Type} (posts : List α) (p : Nat)
    (hp1 : 1 ≤ p) (hp2 : p ≤ total_pages_of posts.length) :
    (create_paginated_posts posts).length = (posts.length + 49) / 50 ∧
    (∃ pd, (create_paginated_posts posts)[p - 1]? = some pd ∧
      pd.page = p ∧
      pd.per_page = 50 ∧
      pd.total_pages = (posts.length + 49) / 50 ∧
      pd.total_posts = posts.length ∧
      (pd.has_prev = true ↔ 1 < p) ∧
      (pd.has_next = true ↔ p < (posts.length + 49) / 50) ∧
      pd.posts.length = min 50 (posts.length - (p - 1) * 50)) ∧
    (create_paginated_posts (List.range 125)).map (fun pd => pd.posts.length) =
      [50, 50, 25] ∧
    (create_paginated_posts (List.range 125)).map (fun pd => pd.has_prev) =
      [false, true, true] ∧
    (create_paginated_posts (List.range 125)).map (fun pd => pd.has_next) =
      [true, true, false] := by
  refine ⟨?_, ?_, by decide, by decide, by decide⟩
  · simp [create_paginated_posts, total_pages_of, posts_per_page]
  · have hlt : p - 1 < total_pages_of posts.length := by omega
    have hp : p - 1 + 1 = p := by omega
    have hget : (create_paginated_posts posts)[p - 1]? = some (mkPage posts p) := by
      simp only [create_paginated_posts]
      rw [List.getElem?_map, List.getElem?_range hlt]
      simp [hp]
    refine ⟨mkPage posts p, hget, rfl, rfl, rfl, rfl, ?_, ?_, ?_⟩
    · show decide (p > 1) = true ↔ 1 < p
      simp only [decide_eq_true_eq]
    · show decide (p < total_pages_of posts.length) = true ↔
        p < (posts.length + 49) / 50
      simp only [decide_eq_true_eq, total_pages_of, posts_per_page]
      omega
    · show ((posts.drop ((p - 1) * posts_per_page)).take
          (min ((p - 1) * posts_per_page + posts_per_page) posts.length -
            (p - 1) * posts_per_page)).length =
        min 50 (posts.length - (p - 1) * 50)
      rw [List.length_take, List.length_drop]
      simp only [posts_per_page]
      omega

/-- Witness for C5 at `n = 125`, `p = 3`: the third page exists and carries
exactly 25 posts with `has_next = false`. -/
theorem pagination_contract_witness :
    1 ≤ 3 ∧ 3 ≤ total_pages_of (List.range 125).length ∧
    ∃ pd, (create_paginated_posts (List.range 125))[3 - 1]? = some pd ∧
      pd.page = 3 ∧
      pd.per_page = 50 ∧
      pd.total_pages = ((List.range 125).length + 49) / 50 ∧
      pd.total_posts = (List.range 125).length ∧
      (pd.has_prev = true ↔ 1 < 3) ∧
      (pd.has_next = true ↔ 3 < ((List.range 125).length + 49) / 50) ∧
      pd.posts.length = min 50 ((List.range 125).length - (3 - 1) * 50) :=
  ⟨by decide, by decide,
    (pagination_contract (List.range 125) 3 (by decide) (by decide)).2.1⟩

/-! ## String helpers for the extraction layer (kernel-computable) -/

/-- `needle` is a prefix of `hay` (character-wise). -/
def startsWithChars : List Char → List Char → Bool
  | [], _ => true
  | _ :: _, [] => false
  | a :: as, b :: bs => a == b && startsWithChars as bs

/-- Python `needle in hay` for strings. -/
def containsChars : List Char → List Char → Bool
  | needle, [] => needle.isEmpty
  | needle, c :: t => startsWithChars needle (c :: t) || containsChars needle t

def strContains (hay needle : String) : Bool := containsChars needle.data hay.data

def strEndsWith (s suffix : String) : Bool :=
  startsWithChars suffix.data.reverse s.data.reverse

/-- Python `str.isdigit()` (ASCII digits). -/
def pyIsdigit (s : String) : Bool := !s.data.isEmpty && s.data.all Char.isDigit

/-- Python `str.strip()`. -/
def strTrim (s : String) : String :=
  String.mk (((s.data.dropWhile Char.isWhitespace).reverse.dropWhile
    Char.isWhitespace).reverse)

/-- Python `str.rstrip("/")`. -/
def rstripSlash (s : String) : String :=
  String.mk ((s.data.reverse.dropWhile (fun c => c == '/')).reverse)

/-- `str.split(sep)` for a one-character separator (keeps empty pieces). -/
def splitSepAux (sep : Char) : List Char → List Char → List (List Char)
  | [], acc => [acc.reverse]
  | c :: cs, acc =>
      if c == sep then acc.reverse :: splitSepAux sep cs []
      else splitSepAux sep cs (c :: acc)

/-- Python `href.split("/")`. -/
def splitSlash (s : String) : List String := (splitSepAux '/' s.data []).map String.mk

/-- `str.replace(needle, repl)` — leftmost, non-overlapping, all occurrences
(fuelled by the string length so the definition stays kernel-computable). -/
def replaceSubAux (needle repl : List Char) : Nat → List Char → List Char
  | 0, s => s
  | _ + 1, [] => []
  | fuel + 1, c :: t =>
      if startsWithChars needle (c :: t) && !needle.isEmpty then
        repl ++ replaceSubAux needle repl fuel (List.drop (needle.length - 1) t)
      else
        c :: replaceSubAux needle repl fuel t

def pyReplace (s needle repl : String) : String :=
  String.mk (replaceSubAux needle.data repl.data s.data.length s.data)

/-- `" ".join` of a token list. -/
def joinTokens : List String → String
  | [] => ""
  | [t] => t
  | t :: rest => t ++ " " ++ joinTokens rest

/-! ## Document-type token derivation (C9) -/

/-- The heading-cleanup of lines 182-183: `re.sub(r'[\r\n\t]+', ' ', t)` then
`re.sub(r'\s+', ' ', t).strip()` — i.e. collapse every whitespace run to one
space and strip, which is the space-join of the whitespace tokens. -/
def normalize_ws (s : String) : String := joinTokens (tokens s)

/-- The document-type token derivation of `update_pope_documents_index`
(vatican_documents_index.py lines 121-145; the identical logic appears in
`VaticanScraper.scrape_pope_details`, vatican_scraper.py lines 281-311):
filter the link, split its path, locate the `"en"` segment, inspect the next
segment (`.index.html` suffix stripped; a purely numeric segment keeps the
*same* segment provided a further one exists), reject falsy results, and
normalize underscores to hyphens. Returns the key under which the index URL is
accumulated, `none` when the link is skipped. -/
def extract_doc_type (href : String) : Option String :=
  if strContains href "/content/" && strContains href ".html" &&
      !strContains href "#" then
    let parts := splitSlash href
    let docType : Option String :=
      match parts.findIdx? (fun p => p == "en") with
      | some langIndex =>
          if langIndex + 1 < parts.length then
            let potential := parts.getD (langIndex + 1) ""
            if strContains potential ".index.html" then
              some (pyReplace potential ".index.html" "")
            else if pyIsdigit potential then
              (if langIndex + 2 < parts.length then
                some (parts.getD (langIndex + 1) "")
              else none)
            else some potential
          else none
      | none => none
    match docType with
    | some t => if t = "" then none else some (pyReplace t "_" "-")
    | none => none
  else none

/-! ## Documents, resume policy and index-page extraction -/

/-- The `Document` dataclass (src/models/document.py) as constructed by
`scrape_documents_from_index`; the `metadata` dict is flattened into its two
keys `vatican_urls` (language code → URL, insertion-ordered) and `raw_html`. -/
structure Document where
  id : String
  pope_id : String
  type : String
  date : String
  title : String
  excerpt : Json
  vatican_urls : List (String × String)
  raw_html : Json

/-- A persisted `documents/{id}.json` as the resume logic can observe it:
`none` — file absent; `some none` — present but `json.load` fails;
`some (some j)` — parses to `j`. -/
def FileState : Type := Option (Option Json)

/-- Python `data.get(key, default)`: raises `AttributeError`
(modelled `Except.error`) when `data` is not a dict. -/
def pyGetD (j : Json) (k : String) (dflt : Json) : Except Unit Json :=
  match j with
  | .obj kvs => .ok ((dget kvs k).getD dflt)
  | _ => .error ()

/-- `any(content.strip() for content in raw_html.values())`: short-circuits at
the first non-blank string; `content.strip()` on a non-string raises. -/
def anyNonBlank : List (String × Json) → Except Unit Bool
  | [] => .ok false
  | (_, .str s) :: rest => if strTrim s ≠ "" then .ok true else anyNonBlank rest
  | _ => .error ()

/-- `_document_has_content` (vatican_documents_index.py lines 83-101): `False`
without resume mode, for a missing file, for undecodable JSON (the caught
`JSONDecodeError`), and for an absent/empty `metadata.raw_html`; `True` when
the persisted record carries a `raw_html` dict with a non-blank value. A
parsed value of the wrong type makes the uncaught `len`/`.values()`/`.strip()`
call raise (`error`). -/
def document_has_content (resume : Bool) (file : FileState) : Except Unit Bool :=
  if !resume then .ok false
  else
    match file with
    | none => .ok false
    | some none => .ok false
    | some (some data) => do
        let md ← pyGetD data "metadata" (.obj [])
        let rh ← pyGetD md "raw_html" (.obj [])
        match rh with
        | .obj kvs =>
            if kvs.length = 0 then .ok false
            else anyNonBlank kvs
        | .arr xs => if xs.length = 0 then .ok false else .error ()
        | .str s => if s.data.length = 0 then .ok false else .error ()
        | _ => .error ()

/-- Modelled from the spec: `VaticanScraper.fetch_document_content` is called
at vatican_documents_index.py lines 258 and 262 but is defined nowhere under
`src/`. Spec §4.3: "Otherwise, fetch and attach content for every discovered
language." The per-language page text and excerpt come from the network,
abstracted as the oracles `fetchRaw`/`fetchExc` (language code, URL ↦ text);
identity, URLs, title and date are unchanged. -/
def fetch_document_content (fetchRaw fetchExc : String → String → String)
    (doc : Document) : Document :=
  { doc with
    raw_html := .obj (doc.vatican_urls.map (fun lu => (lu.1, .str (fetchRaw lu.1 lu.2))))
    excerpt := .obj (doc.vatican_urls.map (fun lu => (lu.1, .str (fetchExc lu.1 lu.2)))) }

/-- The resume branch's re-read of the persisted record (lines 247-253):
`existing_data.get("excerpt", {})` and
`existing_data.get("metadata", {}).get("raw_html", {})`; any failure is caught
by the branch's `except` (modelled `error`, triggering the fetch fallback). -/
def load_existing (file : FileState) : Except Unit (Json × Json) :=
  match file with
  | some (some data) => do
      let exc ← pyGetD data "excerpt" (.obj [])
      let md ← pyGetD data "metadata" (.obj [])
      let rh ← pyGetD md "raw_html" (.obj [])
      .ok (exc, rh)
  | _ => .error ()

/-- Lines 243-262: the per-document content step. Returns the finished
document and whether its content was fetched fresh (`true`) or copied from the
persisted record (`false`); an uncaught exception inside
`_document_has_content` propagates to the caller's loop (`error`). -/
def content_step (resume : Bool) (file : FileState)
    (fetchRaw fetchExc : String → String → String) (doc : Document) :
    Except Unit (Document × Bool) := do
  let has ← document_has_content resume file
  if has then
    match load_existing file with
    | .ok (exc, rh) => .ok ({ doc with excerpt := exc, raw_html := rh }, false)
    | .error _ => .ok (fetch_document_content fetchRaw fetchExc doc, true)
  else
    .ok (fetch_document_content fetchRaw fetchExc doc, true)

/-- One language link of an index item's `h2` block. -/
structure LangLink where
  text : String
  href : String

/-- One `li`/`div.item` of an index page that carries an `h1` (items without
one are `continue`d before any extraction). -/
structure IndexItem where
  heading : String
  links : List LangLink

def BASE_URL : String := "https://www.vatican.va"

/-- `urljoin(BASE_URL, href) if not href.startswith("http") else href`
(`urljoin` modelled for the root-relative hrefs these pages carry). -/
def resolve_url (href : String) : String :=
  if startsWithChars "http".data href.data then href else BASE_URL ++ href

/-- `_extract_language_code` (lines 308-322): the path segment two positions
after the `"content"` segment. -/
def extract_language_code (url : String) : Option String :=
  if url = "" then none
  else
    let parts := splitSlash url
    match parts.findIdx? (fun p => p == "content") with
    | some ci => if ci + 2 < parts.length then some (parts.getD (ci + 2) "") else none
    | none => none

/-- `_extract_document_id` (lines 293-306): final path segment with `.html`
stripped, `None` otherwise. -/
def extract_document_id (url : String) : Option String :=
  if url = "" then none
  else
    let parts := splitSlash (rstripSlash url)
    let filename := (parts.getLast?).getD ""
    if strEndsWith filename ".html" then
      some (String.mk (filename.data.take (filename.data.length - 5)))
    else none

/-- The `languages` dict build of lines 195-212, reduced to the data that
reaches the `Document`: code → resolved URL, insertion-ordered, later link
with the same code overwriting (`languages[language_code] = …`); links whose
code is `None` or `""` (falsy) are skipped. -/
def build_languages (links : List LangLink) : List (String × String) :=
  links.foldl (fun langs link =>
    match extract_language_code link.href with
    | some code =>
        if code ≠ "" then dset langs code (resolve_url link.href) else langs
    | none => langs) []

/-- `languages.get("en", list(languages.values())[0])["metadata"]["url"]`
(line 218), for a non-empty `languages`. -/
def example_url (langs : List (String × String)) : String :=
  match dget langs "en" with
  | some u => u
  | none => ((langs.head?).map (fun kv => kv.2)).getD ""

/-- Title/date split of lines 180-192: normalize whitespace, right-anchored
`re.search(r"\(([^)]+)\)\s*$", …)` — the final character must close a
parenthesized group with non-empty content free of `)`. Returns
(text before the `(`, group content). -/
def split_trailing_paren (t : String) : Option (String × String) :=
  match t.data.getLast? with
  | some ')' =>
      let body := t.data.dropLast
      let zone := (body.reverse.takeWhile (fun c => c ≠ ')')).reverse
      let pre := body.take (body.length - zone.length)
      let sp := zone.span (fun c => c ≠ '(')
      match sp.2 with
      | '(' :: content =>
          if content.isEmpty then none
          else some (String.mk (pre ++ sp.1), String.mk content)
      | _ => none
  | _ => none

/-- Lines 180-192: the `title` and `date` fields as constructed for an index
item's heading — `date_str = parse_document_date(raw_date_str) or raw_date_str`
keeps the raw parenthesized text whenever the normalizer fails. -/
def extract_title_date (heading : String) : String × String :=
  let t := normalize_ws heading
  match split_trailing_paren t with
  | some (before, content) =>
      let raw := strTrim content
      (strTrim before, ((parse_document_date raw).getD raw))
  | none => (t, "")

/-- Lines 171-264, one `li` item: `None` models `continue` (no usable language
link, or no/falsy document id); `error` an uncaught exception. -/
def scrape_index_item (pope_id doc_type : String) (resume : Bool)
    (fs : String → FileState) (fetchRaw fetchExc : String → String → String)
    (item : IndexItem) : Except Unit (Option Document) :=
  let td := extract_title_date item.heading
  let langs := build_languages item.links
  if langs.isEmpty then .ok none
  else
    match extract_document_id (example_url langs) with
    | none => .ok none
    | some docId =>
        if docId = "" then .ok none
        else
          let doc : Document :=
            { id := docId, pope_id := pope_id, type := doc_type,
              title := td.1, date := td.2, excerpt := .obj [],
              vatican_urls := langs, raw_html := .obj [] }
          match content_step resume (fs docId) fetchRaw fetchExc doc with
          | .ok dr => .ok (some dr.1)
          | .error e => .error e

/-- The item loop of `scrape_documents_from_index` (lines 171-271): documents
accumulate in order; an uncaught exception is caught by the function-level
`except Exception`, which returns the documents collected so far. -/
def scrape_loop (pope_id doc_type : String) (resume : Bool)
    (fs : String → FileState) (fetchRaw fetchExc : String → String → String) :
    List IndexItem → List Document → List Document
  | [], acc => acc.reverse
  | item :: rest, acc =>
      match scrape_index_item pope_id doc_type resume fs fetchRaw fetchExc item with
      | .ok none => scrape_loop pope_id doc_type resume fs fetchRaw fetchExc rest acc
      | .ok (some d) =>
          scrape_loop pope_id doc_type resume fs fetchRaw fetchExc rest (d :: acc)
      | .error _ => acc.reverse

/-- `scrape_documents_from_index` over the extracted items of one index page
(a page whose container/`ul` is missing yields zero items). -/
def scrape_documents_from_index (pope_id doc_type : String) (resume : Bool)
    (fs : String → FileState) (fetchRaw fetchExc : String → String → String)
    (items : List IndexItem) : List Document :=
  scrape_loop pope_id doc_type resume fs fetchRaw fetchExc items []

/-! ## The run orchestrator (cli/main.py) -/

/-- The `Pope` record as far as `run_scraper`'s persistence is concerned. -/
structure Pope where
  id : String

/-- `run_scraper` (src/cli/main.py lines 27-105), modelled as the list of file
paths written under the output directory, in order. The network-dependent
steps are abstracted: `popes` is the return of `scrape_pope_list()` and
`docsFor pid` the documents gathered for that pope over the hardcoded
`document_types = ["encyclicals"]`. The `if not popes: … return` of lines
44-46 fires before the directory creation and every `save_api_file` call of
lines 80-103. -/
def run_scraper (popes : List Pope) (docsFor : String → List Document) :
    List String :=
  if popes.isEmpty then []
  else
    let all_popes := popes.foldl (fun m p => dset m p.id p) []
    let all_documents := all_popes.foldl
      (fun m kv => (docsFor kv.1).foldl (fun m d => dset m d.id d) m) []
    (all_documents.map (fun kv => "documents/" ++ kv.1 ++ ".json")) ++
      (all_popes.map (fun kv => "popes/" ++ kv.1 ++ ".json")) ++
      ["popes.json"]

/-! ## Claim theorems: resume policy, date field, doc-type token, invariants -/

theorem anyNonBlank_true (kvs : List (String × Json))
    (hstr : ∀ kv ∈ kvs, ∃ s, kv.2 = Json.str s)
    (hnb : ∃ kv ∈ kvs, ∃ s, kv.2 = Json.str s ∧ strTrim s ≠ "") :
    anyNonBlank kvs = .ok true := by
  induction kvs with
  | nil =>
      obtain ⟨kv, hmem, _⟩ := hnb
      simp at hmem
  | cons kv rest ih =>
      obtain ⟨k, v⟩ := kv
      obtain ⟨s, hs⟩ := hstr (k, v) (List.mem_cons_self _ _)
      simp only at hs
      subst hs
      simp only [anyNonBlank]
      by_cases hb : strTrim s ≠ ""
      · simp [hb]
      · rw [if_neg hb]
        apply ih
        · exact fun kv h => hstr kv (List.mem_cons_of_mem _ h)
        · obtain ⟨kv', hmem', s', hs', hnb'⟩ := hnb
          rcases List.mem_cons.mp hmem' with h | h
          · exfalso
            apply hb
            have hj : Json.str s' = Json.str s := by rw [← hs', h]
            injection hj with hss
            rw [← hss]
            exact hnb'
          · exact ⟨kv', h, s', hs', hnb'⟩

/-- **C6**: with resume enabled and a persisted record whose
`metadata.raw_html` map holds at least one non-blank string, the content step
does not fetch — it copies the persisted excerpt and `raw_html` into the new
record; a missing or undecodable persisted file, and resume mode disabled,
always fetch fresh content. -/
theorem resume_policy (data md : Json) (kvs : List (String × Json))
    (doc : Document) (fetchRaw fetchExc : String → String → String)
    (hmd : pyGetD data "metadata" (.obj []) = .ok md)
    (hrh : pyGetD md "raw_html" (.obj []) = .ok (.obj kvs))
    (hstr : ∀ kv ∈ kvs, ∃ s, kv.2 = Json.str s)
    (hnb : ∃ kv ∈ kvs, ∃ s, kv.2 = Json.str s ∧ strTrim s ≠ "") :
    (∃ exc, pyGetD data "excerpt" (.obj []) = .ok exc ∧
      content_step true (some (some data)) fetchRaw fetchExc doc =
        .ok ({ doc with excerpt := exc, raw_html := .obj kvs }, false)) ∧
    (∀ file : FileState, file = none ∨ file = some none →
      content_step true file fetchRaw fetchExc doc =
        .ok (fetch_document_content fetchRaw fetchExc doc, true)) ∧
    (∀ file : FileState,
      content_step false file fetchRaw fetchExc doc =
        .ok (fetch_document_content fetchRaw fetchExc doc, true)) := by
  have hkvs_ne : kvs ≠ [] := by
    obtain ⟨kv, hmem, _⟩ := hnb
    exact List.ne_nil_of_mem hmem
  obtain ⟨dkvs, hdata⟩ : ∃ dkvs, data = Json.obj dkvs := by
    cases data <;> simp [pyGetD] at hmd
    exact ⟨_, rfl⟩
  subst hdata
  obtain ⟨mkvs, hmdv⟩ : ∃ mkvs, md = Json.obj mkvs := by
    cases md <;> simp [pyGetD] at hrh
    exact ⟨_, rfl⟩
  subst hmdv
  have hmd2 : (dget dkvs "metadata").getD (Json.obj []) = Json.obj mkvs := by
    simpa [pyGetD] using hmd
  have hrh2 : (dget mkvs "raw_html").getD (Json.obj []) = Json.obj kvs := by
    simpa [pyGetD] using hrh
  have hhas : document_has_content true (some (some (Json.obj dkvs))) = .ok true := by
    simp only [document_has_content, Bool.not_true, Bool.false_eq_true, if_false,
      Bind.bind, Except.bind, pyGetD, hmd2, hrh2]
    rw [if_neg (by simpa using hkvs_ne)]
    exact anyNonBlank_true kvs hstr hnb
  refine ⟨?_, ?_, ?_⟩
  · refine ⟨(dget dkvs "excerpt").getD (.obj []), rfl, ?_⟩
    simp only [content_step, Bind.bind, Except.bind, hhas, if_true,
      load_existing, pyGetD, hmd2, hrh2]
  · intro file hfile
    rcases hfile with rfl | rfl <;> rfl
  · intro file
    rfl

/-- The persisted record of the C6 witness:
`{"excerpt": {}, "metadata": {"raw_html": {"en": "x"}}}`. -/
def c6data : Json :=
  .obj [("excerpt", .obj []),
        ("metadata", .obj [("raw_html", .obj [("en", .str "x")])])]

/-- A freshly constructed document record for the C6 witness. -/
def c6doc : Document :=
  { id := "doc1", pope_id := "john-paul-ii", type := "encyclicals",
    date := "2003-04-17", title := "T", excerpt := .obj [],
    vatican_urls := [("en", "https://www.vatican.va/x.html")],
    raw_html := .obj [] }

/-- Witness for C6: with the concrete persisted record above, the content step
copies and does not fetch. -/
theorem resume_policy_witness :
    content_step true (some (some c6data)) (fun _ _ => "") (fun _ _ => "") c6doc =
      .ok
        ({ c6doc with
            excerpt := Json.obj []
            raw_html := Json.obj [("en", Json.str "x")] },
          false) := by
  obtain ⟨exc, hexc, hstep⟩ :=
    (resume_policy c6data (.obj [("raw_html", .obj [("en", .str "x")])])
      [("en", .str "x")] c6doc (fun _ _ => "") (fun _ _ => "") rfl rfl
      (by
        intro kv h
        simp only [List.mem_singleton] at h
        subst h
        exact ⟨"x", rfl⟩)
      ⟨("en", .str "x"), List.mem_singleton.mpr rfl, "x", rfl, by decide⟩).1
  have hexc2 : pyGetD c6data "excerpt" (.obj []) = .ok (.obj []) := rfl
  rw [hexc2] at hexc
  have hx : exc = .obj [] := by
    injection hexc with h
    exact h.symm
  rw [hx] at hstep
  exact hstep

/-- **C7**: if author-list extraction yields zero authors, `run_scraper`
returns before any persistence: no file path is written; with at least one
author the run always reaches the final `popes.json` write (the zero-authors
condition is the only aborting one). -/
theorem zero_authors_aborts (popes : List Pope)
    (docsFor : String → List Document) :
    (popes = [] → run_scraper popes docsFor = []) ∧
    (popes ≠ [] → "popes.json" ∈ run_scraper popes docsFor) := by
  constructor
  · intro h
    subst h
    rfl
  · intro h
    simp only [run_scraper]
    rw [if_neg (by simpa using h)]
    simp

/-- Witness for C7: zero authors produce zero writes, one author reaches the
aggregate write. -/
theorem zero_authors_aborts_witness :
    run_scraper [] (fun _ => []) = [] ∧
    "popes.json" ∈ run_scraper [⟨"francesco"⟩] (fun _ => []) :=
  ⟨(zero_authors_aborts [] (fun _ => [])).1 rfl,
   (zero_authors_aborts [⟨"francesco"⟩] (fun _ => [])).2 (by simp)⟩

/-- **C8 counterexample**: a heading with a trailing parenthesized string the
normalizer cannot parse yields a `date` field equal to that raw string, not
the empty string. -/
theorem date_field_keeps_raw_string :
    extract_title_date "Lorem ipsum (not a date)" = ("Lorem ipsum", "not a date") ∧
    ("not a date" : String) ≠ "" := by
  constructor
  · decide
  · decide

/-- **C8 (amended)**: for a heading whose normalized text ends in a
parenthesized group, the constructed `date` field is the canonical ISO string
when the normalizer parses the (stripped) group content, and the raw stripped
content itself — empty only if the group content is all whitespace — when it
does not. -/
theorem extracted_date_amended (heading before content : String)
    (hsplit : split_trailing_paren (normalize_ws heading) = some (before, content)) :
    (parse_document_date (strTrim content) = none →
      (extract_title_date heading).2 = strTrim content) ∧
    (∀ r, parse_document_date (strTrim content) = some r →
      (extract_title_date heading).2 = r) := by
  constructor
  · intro hparse
    simp only [extract_title_date, hsplit, hparse, Option.getD_none]
  · intro r hparse
    simp only [extract_title_date, hsplit, hparse, Option.getD_some]

/-- Witness for the amended C8 at the counterexample's own heading. -/
theorem extracted_date_amended_witness :
    (extract_title_date "Lorem ipsum (not a date)").2 = strTrim "not a date" :=
  (extracted_date_amended "Lorem ipsum (not a date)" "Lorem ipsum " "not a date"
    (by decide)).1 (by decide)

/-- **C9**: for a sidebar link whose segment after the language code is purely
numeric with at least one further segment, the code checks that the further
segment exists but then takes the numeric segment itself
(`doc_type = parts[lang_index + 1]`, line 133) — the index URLs are
accumulated under the year token, not under the type one segment beyond. -/
theorem doc_type_numeric_year_token :
    extract_doc_type "/content/francesco/en/2013/speeches.index.html" =
      some "2013" ∧
    ("2013" : String) ≠ "speeches" := by
  constructor
  · decide
  · decide

theorem content_step_preserves_urls (resume : Bool) (file : FileState)
    (fetchRaw fetchExc : String → String → String) (doc d : Document) (b : Bool)
    (h : content_step resume file fetchRaw fetchExc doc = .ok (d, b)) :
    d.vatican_urls = doc.vatican_urls := by
  simp only [content_step, Bind.bind, Except.bind] at h
  rcases hdc : document_has_content resume file with e | hb <;> rw [hdc] at h
  · simp at h
  · cases hb
    · simp only [Bool.false_eq_true, if_false] at h
      injection h with h
      rw [← ((Prod.mk.injEq _ _ _ _).mp h).1]
      rfl
    · simp only [if_true] at h
      rcases hle : load_existing file with e | er <;> rw [hle] at h
      · injection h with h
        rw [← ((Prod.mk.injEq _ _ _ _).mp h).1]
        rfl
      · obtain ⟨exc, rh⟩ := er
        injection h with h
        rw [← ((Prod.mk.injEq _ _ _ _).mp h).1]

theorem scrape_loop_invariant (pope_id doc_type : String) (resume : Bool)
    (fs : String → FileState) (fetchRaw fetchExc : String → String → String) :
    ∀ (items : List IndexItem) (acc : List Document),
      (∀ d ∈ acc, d.vatican_urls ≠ []) →
      ∀ doc ∈ scrape_loop pope_id doc_type resume fs fetchRaw fetchExc items acc,
        doc.vatican_urls ≠ [] := by
  intro items
  induction items with
  | nil =>
      intro acc hacc doc hdoc
      simp only [scrape_loop] at hdoc
      exact hacc doc (List.mem_reverse.mp hdoc)
  | cons item rest ih =>
      intro acc hacc doc hdoc
      simp only [scrape_loop] at hdoc
      rcases hsi : scrape_index_item pope_id doc_type resume fs fetchRaw fetchExc
          item with e | od <;> rw [hsi] at hdoc
      · exact hacc doc (List.mem_reverse.mp hdoc)
      · cases od with
        | none => exact ih acc hacc doc hdoc
        | some d =>
            refine ih (d :: acc) ?_ doc hdoc
            intro d' hd'
            rcases List.mem_cons.mp hd' with rfl | hmem
            · simp only [scrape_index_item] at hsi
              split at hsi
              · exact absurd hsi (by simp)
              · rename_i hlangs
                split at hsi
                · exact absurd hsi (by simp)
                · split at hsi
                  · exact absurd hsi (by simp)
                  · rcases hcs : content_step resume (fs _) fetchRaw fetchExc _
                        with e' | dr <;> rw [hcs] at hsi
                    · exact absurd hsi (by simp)
                    · injection hsi with hsi
                      injection hsi with hsi
                      have hurls := content_step_preserves_urls _ _ _ _ _ _ _ hcs
                      rw [← hsi, hurls]
                      simpa using hlangs
            · exact hacc d' hmem

/-- **C10**: every `Document` returned by `scrape_documents_from_index` has a
non-empty `metadata.vatican_urls` map — items with zero usable language links,
and items without a derivable document id, are skipped before a `Document` is
constructed, and the content step never touches the URL map. -/
theorem documents_have_language_url (pope_id doc_type : String) (resume : Bool)
    (fs : String → FileState) (fetchRaw fetchExc : String → String → String)
    (items : List IndexItem) (doc : Document)
    (hmem : doc ∈ scrape_documents_from_index pope_id doc_type resume fs
      fetchRaw fetchExc items) :
    doc.vatican_urls ≠ [] :=
  scrape_loop_invariant pope_id doc_type resume fs fetchRaw fetchExc items []
    (by intro d h; simp at h) doc hmem

/-- The one index item of the C10 witness. -/
def c10item : IndexItem :=
  { heading := "Ecclesia de Eucharistia (17 April 2003)",
    links := [{ text := "English",
                href := "/content/john-paul-ii/en/encyclicals/documents/hf_jp-ii_enc_20030417_eccl-de-euch.html" }] }

/-- The document the pipeline produces for `c10item` (resume off, oracles
returning `"raw"`/`"exc"`). -/
def c10doc : Document :=
  { id := "hf_jp-ii_enc_20030417_eccl-de-euch", pope_id := "john-paul-ii",
    type := "encyclicals", date := "2003-04-17",
    title := "Ecclesia de Eucharistia",
    excerpt := .obj [("en", .str "exc")],
    vatican_urls :=
      [("en", "https://www.vatican.va/content/john-paul-ii/en/encyclicals/documents/hf_jp-ii_enc_20030417_eccl-de-euch.html")],
    raw_html := .obj [("en", .str "raw")] }

/-- Witness for C10: the document produced for the concrete index item has a
non-empty language-URL map. -/
theorem documents_have_language_url_witness : c10doc.vatican_urls ≠ [] :=
  documents_have_language_url "john-paul-ii" "encyclicals" false
    (fun _ => none) (fun _ _ => "raw") (fun _ _ => "exc") [c10item] c10doc
    (show c10doc ∈ [c10doc] from List.mem_singleton.mpr rfl)

end Scrapper
